import Mathlib

/-!
# Offline-first cache and sync engine: a shallow embedding

This file embeds the client-side offline-first cache and synchronization
engine of the tour-plan application:

* `LocalStorage` (js/storage.js, the `LocalStorage` class): the durable cache
  document (users, plans, custom locations, admin override, sync queue,
  lastSync) and its synchronous mutating operations.
* `APIClient` (js/api.js, the `APIClient` class): per-action remote wrappers
  (`addUser`, `deleteUser`, `setPlan`, `addCustomLocation`,
  `setAdminOverride`, `clearAdminOverride`), the read-path merge of
  `getUsers`, the retrying fetch wrapper `fetchWithRetry`, and the replay
  loop `processSyncQueue`.
* `computeWeekStartIST` (js/utils.js): the pure week-clock function.

Modelling conventions:

* JavaScript objects used as string-keyed maps are embedded as association
  lists with first-occurrence lookup (`AList.get`) and replace-first-or-append
  update (`AList.set`); objects created by the program have unique keys, on
  which these operations agree with JS object semantics.
* `localStorage.setItem` either persists the whole serialized document or
  throws (quota); `LocalStorage.saveData` catches the throw and returns a
  boolean.  The backing store is embedded as the `doc` field of `StoreState`;
  a failing backend is embedded by `writeOk = false`, under which every save
  leaves the persisted document unchanged.  JSON round-tripping is identity
  on the embedded document type.
* Queue-item ids come from `Date.now() + Math.random()`; the embedding draws
  them from the `nextId` counter of `StoreState` (fresh ids, monotone), which
  also stands in for the ambient clock.
* ISO timestamp strings stored in `timestamp`/`lastSync` are never read back
  by any embedded logic; `lastSync` is embedded as the fact that a sync
  completion was recorded.
* The network is an oracle: `NetOutcome` is the outcome of one logical
  `fetchWithRetry` call (a parsed 2xx JSON envelope with its `ok` field, or a
  thrown error after retries).  `fetchWithRetry` itself is embedded separately
  at single-HTTP-attempt granularity for the retry-policy analysis.
-/

namespace TourPlan

/-! ## Association lists embedding JS string-keyed objects -/

namespace AList

/-- First-occurrence lookup, `obj[k]` (`undefined` ↦ `none`). -/
def get {α : Type} (l : List (String × α)) (k : String) : Option α :=
  (l.find? (fun p => p.1 = k)).map (fun p => p.2)

/-- `obj[k] = v`: replace the binding if the key is present, else append. -/
def set {α : Type} : List (String × α) → String → α → List (String × α)
  | [], k, v => [(k, v)]
  | p :: rest, k, v => if p.1 = k then (k, v) :: rest else p :: set rest k v

/-- `delete obj[k]`. -/
def erase {α : Type} (l : List (String × α)) (k : String) : List (String × α) :=
  l.filter (fun p => p.1 ≠ k)

@[simp] theorem get_nil {α : Type} (k : String) : get ([] : List (String × α)) k = none := rfl

@[simp] theorem get_cons {α : Type} (p : String × α) (l : List (String × α)) (k : String) :
    get (p :: l) k = if p.1 = k then some p.2 else get l k := by
  by_cases h : p.1 = k <;> simp [get, List.find?, h]

@[simp] theorem get_set_self {α : Type} (l : List (String × α)) (k : String) (v : α) :
    get (set l k v) k = some v := by
  induction l with
  | nil => simp [set]
  | cons p rest ih =>
    by_cases h : p.1 = k
    · simp [set, h]
    · simp [set, h, ih]

theorem get_set_ne {α : Type} (l : List (String × α)) (k k' : String) (v : α) (h : k ≠ k') :
    get (set l k v) k' = get l k' := by
  induction l with
  | nil => simp [set, h]
  | cons p rest ih =>
    by_cases hp : p.1 = k
    · simp [set, hp, h]
    · simp [set, hp, ih]

@[simp] theorem get_erase_self {α : Type} (l : List (String × α)) (k : String) :
    get (erase l k) k = none := by
  induction l with
  | nil => simp [erase]
  | cons p rest ih =>
    by_cases h : p.1 = k
    · simpa [erase, h] using ih
    · simpa [erase, h] using ih

theorem get_erase_ne {α : Type} (l : List (String × α)) (k k' : String) (h : k ≠ k') :
    get (erase l k) k' = get l k' := by
  induction l with
  | nil => rfl
  | cons p rest ih =>
    by_cases hp : p.1 = k
    · have hd : erase (p :: rest) k = erase rest k := by simp [erase, hp]
      have hpk' : p.1 ≠ k' := by rw [hp]; exact h
      rw [hd, ih, get_cons, if_neg hpk']
    · have hd : erase (p :: rest) k = p :: erase rest k := by simp [erase, hp]
      rw [hd, get_cons, get_cons, ih]

/-- `set` leaves the whole list unchanged when the key already maps to the
same value (first-occurrence semantics). -/
theorem set_eq_self_of_get {α : Type} (l : List (String × α)) (k : String) (v : α)
    (h : get l k = some v) : set l k v = l := by
  induction l with
  | nil => simp [get] at h
  | cons p rest ih =>
    obtain ⟨a, b⟩ := p
    by_cases hp : a = k
    · simp only [get_cons, if_pos hp] at h
      injection h with h
      simp [set, hp, h]
    · simp only [get_cons, if_neg hp] at h
      simp [set, hp, ih h]

theorem get_map_snd {α β : Type} (l : List (String × α)) (f : α → β) (k : String) :
    get (l.map (fun p => (p.1, f p.2))) k = (get l k).map f := by
  induction l with
  | nil => simp
  | cons p rest ih =>
    by_cases h : p.1 = k <;> simp [h, ih]

theorem map_set {α β : Type} (l : List (String × α)) (k : String) (v : α) (f : α → β) :
    (set l k v).map (fun p => (p.1, f p.2)) = set (l.map (fun p => (p.1, f p.2))) k (f v) := by
  induction l with
  | nil => simp [set]
  | cons p rest ih =>
    by_cases h : p.1 = k <;> simp [set, h, ih]

end AList

/-! ## Data model (js/storage.js) -/

/-- A user record: `{password, isAdmin}` keyed by name in the `users` object. -/
structure User where
  password : String
  isAdmin : Bool
deriving Repr, DecidableEq

/-- The singleton admin override `{adminName, overrideWeekStart, timestamp}`
(the ISO `timestamp` metadata string is not read by any embedded logic and is
omitted). -/
structure AdminOverride where
  adminName : String
  overrideWeekStart : String
deriving Repr, DecidableEq

/-- The per-action payload attached to a sync-queue item; these are the exact
object shapes pushed by the six `LocalStorage` mutators. -/
inductive SyncPayload where
  | userUpdate (name : String) (userData : User)
  | userDelete (name : String)
  | planUpdate (weekStartId userName : String) (locations : List String)
  | customLocationAdd (userName weekStartId dayDate location : String)
  | adminOverride (adminName overrideWeekStart : String)
  | adminOverrideClear
deriving Repr, DecidableEq

/-- A durable sync-queue entry `{id, action, payload, timestamp, attempts}`
(the ISO `timestamp` field is never read back and is omitted). -/
structure SyncItem where
  id : Nat
  action : String
  payload : SyncPayload
  attempts : Nat
deriving Repr, DecidableEq

/-- The aggregate cache document persisted under the single storage key.
`plans` maps weekId → (userName → 7 location strings); `customLocations`
maps userName → weekId → dayDate → location.  `lastSync` records whether a
sync-completion timestamp has been written. -/
structure CacheDocument where
  users : List (String × User)
  plans : List (String × List (String × List String))
  customLocations : List (String × List (String × List (String × String)))
  adminOverride : Option AdminOverride
  syncQueue : List SyncItem
  lastSync : Bool
deriving Repr, DecidableEq

/-- The world state of the Local Store: the persisted document, the id/clock
source, and whether the storage backend currently accepts writes. -/
structure StoreState where
  doc : CacheDocument
  nextId : Nat
  writeOk : Bool
deriving Repr, DecidableEq

namespace LocalStorage

/-- `saveData`: persist the whole document; on backend failure the exception
is caught, `false` is returned, and the persisted document is unchanged. -/
def saveData (st : StoreState) (d : CacheDocument) : Bool × StoreState :=
  if st.writeOk then (true, { st with doc := d }) else (false, st)

/-- The state part of `saveData` (its boolean result is discarded by every
caller in the source). -/
def save (st : StoreState) (d : CacheDocument) : StoreState :=
  (saveData st d).2

/-- `addToSyncQueue(action, payload)`: push one fresh item with
`attempts = 0` onto the queue and persist. -/
def addToSyncQueue (st : StoreState) (action : String) (payload : SyncPayload) : StoreState :=
  let item : SyncItem := { id := st.nextId, action := action, payload := payload, attempts := 0 }
  let st' : StoreState := { st with nextId := st.nextId + 1 }
  save st' { st'.doc with syncQueue := st'.doc.syncQueue ++ [item] }

/-- `setUser(name, userData)`: write the user record, then enqueue a
`user_update` item. -/
def setUser (st : StoreState) (name : String) (userData : User) : StoreState :=
  let st := save st { st.doc with users := AList.set st.doc.users name userData }
  addToSyncQueue st "user_update" (.userUpdate name userData)

/-- `removeUser(name)`: cascade-delete the user, every plan entry keyed by the
user across all weeks, and the user's custom locations, in one `saveData`;
then enqueue a `user_delete` item. -/
def removeUser (st : StoreState) (name : String) : StoreState :=
  let d := st.doc
  let d := { d with
              users := AList.erase d.users name,
              plans := d.plans.map (fun p => (p.1, AList.erase p.2 name)),
              customLocations := AList.erase d.customLocations name }
  let st := save st d
  addToSyncQueue st "user_delete" (.userDelete name)

/-- `setPlan(weekStartId, userName, locations)`: upsert the 7-slot plan, then
enqueue a `plan_update` item. -/
def setPlan (st : StoreState) (weekStartId userName : String) (locations : List String) :
    StoreState :=
  let weekMap := (AList.get st.doc.plans weekStartId).getD []
  let newPlans := AList.set st.doc.plans weekStartId (AList.set weekMap userName locations)
  let st := save st { st.doc with plans := newPlans }
  addToSyncQueue st "plan_update" (.planUpdate weekStartId userName locations)

/-- `addCustomLocation(userName, weekStartId, dayDate, location)`. -/
def addCustomLocation (st : StoreState) (userName weekStartId dayDate location : String) :
    StoreState :=
  let userMap := (AList.get st.doc.customLocations userName).getD []
  let weekMap := (AList.get userMap weekStartId).getD []
  let newCustom := AList.set st.doc.customLocations userName
    (AList.set userMap weekStartId (AList.set weekMap dayDate location))
  let st := save st { st.doc with customLocations := newCustom }
  addToSyncQueue st "custom_location_add"
    (.customLocationAdd userName weekStartId dayDate location)

/-- `setAdminOverride(adminName, overrideWeekStart)`. -/
def setAdminOverride (st : StoreState) (adminName overrideWeekStart : String) : StoreState :=
  let ov : AdminOverride := { adminName := adminName, overrideWeekStart := overrideWeekStart }
  let st := save st { st.doc with adminOverride := some ov }
  addToSyncQueue st "admin_override" (.adminOverride adminName overrideWeekStart)

/-- `clearAdminOverride()`. -/
def clearAdminOverride (st : StoreState) : StoreState :=
  let st := save st { st.doc with adminOverride := none }
  addToSyncQueue st "admin_override_clear" .adminOverrideClear

/-- `removeSyncItem(itemId)`: filter the queue by `item.id !== itemId` and
persist. -/
def removeSyncItem (st : StoreState) (itemId : Nat) : StoreState :=
  save st { st.doc with syncQueue := st.doc.syncQueue.filter (fun it => it.id ≠ itemId) }

/-- Replace the `attempts` of the first queue entry with the given id. -/
def setAttempts : List SyncItem → Nat → Nat → List SyncItem
  | [], _, _ => []
  | it :: rest, itemId, att =>
    if it.id = itemId then { it with attempts := att } :: rest
    else it :: setAttempts rest itemId att

/-- `updateSyncAttempts(itemId, attempts)`: `find` the item, set its attempt
count, and persist only if it was found. -/
def updateSyncAttempts (st : StoreState) (itemId att : Nat) : StoreState :=
  if st.doc.syncQueue.any (fun it => it.id = itemId) then
    save st { st.doc with syncQueue := setAttempts st.doc.syncQueue itemId att }
  else st

/-- `setLastSync()`: record that a sync pass completed. -/
def setLastSync (st : StoreState) : StoreState :=
  save st { st.doc with lastSync := true }

/-- Plan lookup helper: the stored locations for `(weekId, userName)`. -/
def planLookup (d : CacheDocument) (weekStartId userName : String) : Option (List String) :=
  (AList.get d.plans weekStartId).bind (fun m => AList.get m userName)

end LocalStorage

/-! ## Remote gateway (js/api.js) -/

/-- The outcome of one `fetch` attempt inside `fetchWithRetry`:
* `success`: a 2xx response whose body parses as JSON;
* `httpError status jsonMessage`: a non-2xx response; `jsonMessage` is the
  `message` field when the body parses as JSON and carries one, `none` when
  the body does not parse (the `.catch(() => ({}))` branch) or has no message;
* `networkError msg`: `fetch` itself rejected. -/
inductive FetchOutcome where
  | success
  | httpError (status : Nat) (jsonMessage : Option String)
  | networkError (msg : String)
deriving Repr, DecidableEq

/-- The `Error` message thrown for a failed attempt:
`errorData.message || HTTP <status>` for non-2xx, the network error
otherwise. -/
def FetchOutcome.errText : FetchOutcome → String
  | .success => ""
  | .httpError status jsonMessage => jsonMessage.getD ("HTTP " ++ toString status)
  | .networkError msg => msg

namespace APIClient

/-- `fetchWithRetry(url, options, maxRetries)` at single-attempt granularity:
`attempts` is an oracle giving the outcome of the `i`-th HTTP attempt.
Returns the overall result (`Except.error` is the thrown error message) and
the number of HTTP attempts performed.  The loop retries every thrown error
— a non-2xx status (of either JSON or non-JSON body) as well as a network
failure — and rethrows only on the last allowed attempt. -/
def fetchWithRetryAux (attempts : Nat → FetchOutcome) (i : Nat) :
    Nat → Except String Unit × Nat
  | 0 => (Except.error "", 0)
  | fuel + 1 =>
    match attempts i with
    | .success => (Except.ok (), 1)
    | o =>
      if fuel = 0 then (Except.error o.errText, 1)
      else
        let r := fetchWithRetryAux attempts (i + 1) fuel
        (r.1, r.2 + 1)

/-- `fetchWithRetry` with its default `maxRetries = 3`. -/
def fetchWithRetry (attempts : Nat → FetchOutcome) (maxRetries : Nat := 3) :
    Except String Unit × Nat :=
  fetchWithRetryAux attempts 0 maxRetries

end APIClient

/-- One logical request body sent to the remote datastore by the mutating
wrappers (endpoint plus JSON payload). -/
inductive Request where
  | usersAdd (name password : String) (isAdmin : Bool)
  | usersDelete (name : String)
  | plansSet (weekStart name : String) (locationsArray : List String)
  | customAdd (name weekStart dayDate location : String)
  | overridePost (adminName overrideWeekStart : Option String)
deriving Repr, DecidableEq

/-- The outcome of one logical `fetchWithRetry` call as seen by the wrapper
methods: either the parsed 2xx JSON envelope (with its `ok` field) or a
thrown error after retries were exhausted. -/
inductive NetOutcome where
  | resp (ok : Bool)
  | thrown
deriving Repr, DecidableEq

namespace APIClient

/-- `addUser(name, password, isAdmin)`: local write (which enqueues a
`user_update`), then, when online, one remote call whose thrown errors are
swallowed into an `ok:true` "added locally" response.  Returns the `ok`
field of the response the caller sees, the new state, and the requests
issued. -/
def addUser (online : Bool) (net : Request → NetOutcome) (st : StoreState)
    (name password : String) (isAdmin : Bool) : Bool × StoreState × List Request :=
  let st := LocalStorage.setUser st name { password := password, isAdmin := isAdmin }
  if !online then (true, st, [])
  else
    let req := Request.usersAdd name password isAdmin
    match net req with
    | .resp ok => (ok, st, [req])
    | .thrown => (true, st, [req])

/-- `deleteUser(name)`. -/
def deleteUser (online : Bool) (net : Request → NetOutcome) (st : StoreState)
    (name : String) : Bool × StoreState × List Request :=
  let st := LocalStorage.removeUser st name
  if !online then (true, st, [])
  else
    let req := Request.usersDelete name
    match net req with
    | .resp ok => (ok, st, [req])
    | .thrown => (true, st, [req])

/-- `setPlan(weekStartId, userName, locations)`. -/
def setPlan (online : Bool) (net : Request → NetOutcome) (st : StoreState)
    (weekStartId userName : String) (locations : List String) :
    Bool × StoreState × List Request :=
  let st := LocalStorage.setPlan st weekStartId userName locations
  if !online then (true, st, [])
  else
    let req := Request.plansSet weekStartId userName locations
    match net req with
    | .resp ok => (ok, st, [req])
    | .thrown => (true, st, [req])

/-- `addCustomLocation(userName, weekStartId, dayDate, location)`. -/
def addCustomLocation (online : Bool) (net : Request → NetOutcome) (st : StoreState)
    (userName weekStartId dayDate location : String) : Bool × StoreState × List Request :=
  let st := LocalStorage.addCustomLocation st userName weekStartId dayDate location
  if !online then (true, st, [])
  else
    let req := Request.customAdd userName weekStartId dayDate location
    match net req with
    | .resp ok => (ok, st, [req])
    | .thrown => (true, st, [req])

/-- `setAdminOverride(adminName, overrideWeekStart)`. -/
def setAdminOverride (online : Bool) (net : Request → NetOutcome) (st : StoreState)
    (adminName overrideWeekStart : String) : Bool × StoreState × List Request :=
  let st := LocalStorage.setAdminOverride st adminName overrideWeekStart
  if !online then (true, st, [])
  else
    let req := Request.overridePost (some adminName) (some overrideWeekStart)
    match net req with
    | .resp ok => (ok, st, [req])
    | .thrown => (true, st, [req])

/-- `clearAdminOverride()` posts null `adminName`/`overrideWeekStart`. -/
def clearAdminOverride (online : Bool) (net : Request → NetOutcome) (st : StoreState) :
    Bool × StoreState × List Request :=
  let st := LocalStorage.clearAdminOverride st
  if !online then (true, st, [])
  else
    let req := Request.overridePost none none
    match net req with
    | .resp ok => (ok, st, [req])
    | .thrown => (true, st, [req])

/-- The read-path merge of `getUsers` on a successful server response: with
the pre-merge users object captured once as `currentUsers`, each server user
`{name, isAdmin}` that already has a local record is written back through
`setUser` as the snapshot record with only `isAdmin` replaced; server users
with no local record are skipped. -/
def mergeUsersLoop (currentUsers : List (String × User))
    (serverUsers : List (String × Bool)) (st : StoreState) : StoreState :=
  match serverUsers with
  | [] => st
  | (name, isAdmin) :: rest =>
    match AList.get currentUsers name with
    | some u =>
      mergeUsersLoop currentUsers rest
        (LocalStorage.setUser st name { u with isAdmin := isAdmin })
    | none => mergeUsersLoop currentUsers rest st

/-- `getUsers`, online path with a successful `response.users`: the local
merge it performs (the function also returns the raw server response to its
caller, which does not touch the store). -/
def getUsersMergeLocal (serverUsers : List (String × Bool)) (st : StoreState) : StoreState :=
  mergeUsersLoop st.doc.users serverUsers st

/-- The `switch (item.action)` dispatch of `processSyncQueue`: route a queue
item to the matching wrapper method (replay always runs with
`this.isOnline = true`, having returned early otherwise).  Result `none`
embeds a thrown dispatch error (a known action whose payload lacks the fields
the dispatch reads — a shape `addToSyncQueue` never produces); an
unrecognized action is treated as success without any remote call. -/
def dispatchItem (net : Request → NetOutcome) (st : StoreState) (item : SyncItem) :
    Option Bool × StoreState × List Request :=
  if item.action = "user_update" then
    match item.payload with
    | .userUpdate name userData =>
      let r := addUser true net st name userData.password userData.isAdmin
      (some r.1, r.2)
    | _ => (none, st, [])
  else if item.action = "user_delete" then
    match item.payload with
    | .userDelete name =>
      let r := deleteUser true net st name
      (some r.1, r.2)
    | _ => (none, st, [])
  else if item.action = "plan_update" then
    match item.payload with
    | .planUpdate weekStartId userName locations =>
      let r := setPlan true net st weekStartId userName locations
      (some r.1, r.2)
    | _ => (none, st, [])
  else if item.action = "custom_location_add" then
    match item.payload with
    | .customLocationAdd userName weekStartId dayDate location =>
      let r := addCustomLocation true net st userName weekStartId dayDate location
      (some r.1, r.2)
    | _ => (none, st, [])
  else if item.action = "admin_override" then
    match item.payload with
    | .adminOverride adminName overrideWeekStart =>
      let r := setAdminOverride true net st adminName overrideWeekStart
      (some r.1, r.2)
    | _ => (none, st, [])
  else if item.action = "admin_override_clear" then
    let r := clearAdminOverride true net st
    (some r.1, r.2)
  else
    (some true, st, [])

/-- The per-item body of the replay loop: on `success` dequeue; otherwise
record `attempts + 1` and, when the item had already accumulated
`attempts ≥ 5` before this pass, dequeue it as exhausted.  A thrown dispatch
error only records the attempt. -/
def processItem (net : Request → NetOutcome) (st : StoreState) (item : SyncItem) :
    StoreState × List Request :=
  match dispatchItem net st item with
  | (some success, st', reqs) =>
    if success then (LocalStorage.removeSyncItem st' item.id, reqs)
    else
      let st'' := LocalStorage.updateSyncAttempts st' item.id (item.attempts + 1)
      if 5 ≤ item.attempts then (LocalStorage.removeSyncItem st'' item.id, reqs)
      else (st'', reqs)
  | (none, st', reqs) =>
    (LocalStorage.updateSyncAttempts st' item.id (item.attempts + 1), reqs)

/-- `processSyncQueue()`: no-op when offline or when the queue is empty
(in the latter case without recording `lastSync`); otherwise iterate over a
snapshot of the queue in insertion order and record `lastSync` once the pass
completes.  Returns the new state and the requests issued, in order. -/
def processSyncQueue (online : Bool) (net : Request → NetOutcome) (st : StoreState) :
    StoreState × List Request :=
  if !online then (st, [])
  else if st.doc.syncQueue.isEmpty then (st, [])
  else
    let step := fun (acc : StoreState × List Request) (item : SyncItem) =>
      let r := processItem net acc.1 item
      (r.1, acc.2 ++ r.2)
    let r := st.doc.syncQueue.foldl step (st, [])
    (LocalStorage.setLastSync r.1, r.2)

end APIClient

/-- The effect of a trace of (successful) `plans/set` requests on the remote
store: the last `plansSet` for a `(weekStart, name)` pair is the row the
serverless function leaves behind (the `plans/set` handler overwrites the
row for that key). -/
def lastPlanSet (reqs : List Request) (weekStart name : String) : Option (List String) :=
  reqs.foldl
    (fun acc r =>
      match r with
      | .plansSet w n locs => if w = weekStart ∧ n = name then some locs else acc
      | _ => acc)
    none

/-! ## Effect lemmas for the Local Store operations -/

namespace LocalStorage

theorem save_eq_of_writeOk (st : StoreState) (d : CacheDocument) (h : st.writeOk = true) :
    save st d = { st with doc := d } := by
  simp [save, saveData, h]

theorem setUser_eq (st : StoreState) (name : String) (u : User) (h : st.writeOk = true) :
    setUser st name u =
      ⟨{ st.doc with
          users := AList.set st.doc.users name u,
          syncQueue := st.doc.syncQueue ++
            [⟨st.nextId, "user_update", .userUpdate name u, 0⟩] },
        st.nextId + 1, true⟩ := by
  simp [setUser, addToSyncQueue, save, saveData, h]

theorem setUser_eq_of_writeFail (st : StoreState) (name : String) (u : User)
    (h : st.writeOk = false) : setUser st name u = { st with nextId := st.nextId + 1 } := by
  simp [setUser, addToSyncQueue, save, saveData, h]

theorem removeUser_eq (st : StoreState) (name : String) (h : st.writeOk = true) :
    removeUser st name =
      ⟨{ st.doc with
          users := AList.erase st.doc.users name,
          plans := st.doc.plans.map (fun p => (p.1, AList.erase p.2 name)),
          customLocations := AList.erase st.doc.customLocations name,
          syncQueue := st.doc.syncQueue ++
            [⟨st.nextId, "user_delete", .userDelete name, 0⟩] },
        st.nextId + 1, true⟩ := by
  simp [removeUser, addToSyncQueue, save, saveData, h]

theorem setPlan_eq (st : StoreState) (weekStartId userName : String) (locations : List String)
    (h : st.writeOk = true) :
    setPlan st weekStartId userName locations =
      ⟨{ st.doc with
          plans := AList.set st.doc.plans weekStartId
            (AList.set ((AList.get st.doc.plans weekStartId).getD []) userName locations),
          syncQueue := st.doc.syncQueue ++
            [⟨st.nextId, "plan_update", .planUpdate weekStartId userName locations, 0⟩] },
        st.nextId + 1, true⟩ := by
  simp [setPlan, addToSyncQueue, save, saveData, h]

theorem addCustomLocation_eq (st : StoreState)
    (userName weekStartId dayDate location : String) (h : st.writeOk = true) :
    addCustomLocation st userName weekStartId dayDate location =
      ⟨{ st.doc with
          customLocations := AList.set st.doc.customLocations userName
            (AList.set ((AList.get st.doc.customLocations userName).getD []) weekStartId
              (AList.set
                ((AList.get ((AList.get st.doc.customLocations userName).getD [])
                  weekStartId).getD [])
                dayDate location)),
          syncQueue := st.doc.syncQueue ++
            [⟨st.nextId, "custom_location_add",
              .customLocationAdd userName weekStartId dayDate location, 0⟩] },
        st.nextId + 1, true⟩ := by
  simp [addCustomLocation, addToSyncQueue, save, saveData, h]

theorem setAdminOverride_eq (st : StoreState) (adminName overrideWeekStart : String)
    (h : st.writeOk = true) :
    setAdminOverride st adminName overrideWeekStart =
      ⟨{ st.doc with
          adminOverride := some ⟨adminName, overrideWeekStart⟩,
          syncQueue := st.doc.syncQueue ++
            [⟨st.nextId, "admin_override",
              .adminOverride adminName overrideWeekStart, 0⟩] },
        st.nextId + 1, true⟩ := by
  simp [setAdminOverride, addToSyncQueue, save, saveData, h]

theorem clearAdminOverride_eq (st : StoreState) (h : st.writeOk = true) :
    clearAdminOverride st =
      ⟨{ st.doc with
          adminOverride := none,
          syncQueue := st.doc.syncQueue ++
            [⟨st.nextId, "admin_override_clear", .adminOverrideClear, 0⟩] },
        st.nextId + 1, true⟩ := by
  simp [clearAdminOverride, addToSyncQueue, save, saveData, h]

theorem removeSyncItem_eq (st : StoreState) (itemId : Nat) (h : st.writeOk = true) :
    removeSyncItem st itemId =
      ⟨{ st.doc with syncQueue := st.doc.syncQueue.filter (fun it => it.id ≠ itemId) },
        st.nextId, true⟩ := by
  simp [removeSyncItem, save, saveData, h]

theorem updateSyncAttempts_eq (st : StoreState) (itemId att : Nat) (h : st.writeOk = true)
    (hfound : st.doc.syncQueue.any (fun it => it.id = itemId) = true) :
    updateSyncAttempts st itemId att =
      ⟨{ st.doc with syncQueue := setAttempts st.doc.syncQueue itemId att },
        st.nextId, true⟩ := by
  simp [updateSyncAttempts, save, saveData, h, hfound]

theorem setLastSync_eq (st : StoreState) (h : st.writeOk = true) :
    setLastSync st = ⟨{ st.doc with lastSync := true }, st.nextId, true⟩ := by
  simp [setLastSync, save, saveData, h]

end LocalStorage

/-! ## Reduction lemmas for the replay dispatch -/

namespace APIClient

theorem dispatchItem_planUpdate (net : Request → NetOutcome) (st : StoreState)
    (i a : Nat) (W U : String) (L : List String) :
    dispatchItem net st ⟨i, "plan_update", .planUpdate W U L, a⟩ =
      (some (setPlan true net st W U L).1, (setPlan true net st W U L).2) := rfl

theorem dispatchItem_userUpdate (net : Request → NetOutcome) (st : StoreState)
    (i a : Nat) (n : String) (u : User) :
    dispatchItem net st ⟨i, "user_update", .userUpdate n u, a⟩ =
      (some (addUser true net st n u.password u.isAdmin).1,
        (addUser true net st n u.password u.isAdmin).2) := rfl

theorem dispatchItem_userDelete (net : Request → NetOutcome) (st : StoreState)
    (i a : Nat) (n : String) :
    dispatchItem net st ⟨i, "user_delete", .userDelete n, a⟩ =
      (some (deleteUser true net st n).1, (deleteUser true net st n).2) := rfl

theorem processSyncQueue_cons (online : Bool) (net : Request → NetOutcome) (st : StoreState)
    (it : SyncItem) (rest : List SyncItem) (h : st.doc.syncQueue = it :: rest)
    (honline : online = true) :
    processSyncQueue online net st =
      (let step := fun (acc : StoreState × List Request) (item : SyncItem) =>
        let r := processItem net acc.1 item
        (r.1, acc.2 ++ r.2)
      let r := (it :: rest).foldl step (st, [])
      (LocalStorage.setLastSync r.1, r.2)) := by
  simp [processSyncQueue, honline, h]

end APIClient

/-! ## Concrete states and network oracles used by the claim checks -/

/-- A 7-slot location row `["X", "", "", "", "", "", ""]`. -/
def exLocations : List String := ["X", "", "", "", "", "", ""]

/-- A freshly enqueued `plan_update` item. -/
def exPlanItem : SyncItem :=
  { id := 0, action := "plan_update",
    payload := .planUpdate "20250811" "A" exLocations, attempts := 0 }

/-- An otherwise empty cache document. -/
def exEmptyDoc : CacheDocument :=
  { users := [], plans := [], customLocations := [], adminOverride := none,
    syncQueue := [], lastSync := false }

/-- A healthy store whose queue holds exactly the one pending `plan_update`. -/
def exQueueState : StoreState :=
  { doc := { exEmptyDoc with syncQueue := [exPlanItem] }, nextId := 1, writeOk := true }

/-- A network on which every remote call resolves to a 2xx `{ok:true}`. -/
def netAllOk : Request → NetOutcome := fun _ => .resp true

/-- A network on which every remote call resolves to a 2xx `{ok:false}`. -/
def netAllReject : Request → NetOutcome := fun _ => .resp false

/-- A network on which every `fetchWithRetry` call exhausts its retries and
throws. -/
def netAllThrown : Request → NetOutcome := fun _ => .thrown

/-! ## Anatomy of one replay pass over a single pending `plan_update` -/

section SinglePlanPass

variable (st : StoreState) (net : Request → NetOutcome)
variable (i : Nat) (W U : String) (L : List String) (a : Nat)

/-- One replay pass over a queue holding a single `plan_update`, when the
remote accepts it: the dispatch re-runs `LocalStorage.setPlan` (leaving a
fresh copy of the mutation in the queue) and the original item is dequeued. -/
theorem singlePlanPass_success
    (hw : st.writeOk = true)
    (hq : st.doc.syncQueue = [⟨i, "plan_update", .planUpdate W U L, a⟩])
    (hi : st.nextId ≠ i)
    (hn : net (Request.plansSet W U L) = .resp true) :
    APIClient.processSyncQueue true net st =
      (⟨{ st.doc with
            plans := AList.set st.doc.plans W
              (AList.set ((AList.get st.doc.plans W).getD []) U L),
            syncQueue := [⟨st.nextId, "plan_update", .planUpdate W U L, 0⟩],
            lastSync := true },
          st.nextId + 1, true⟩,
        [Request.plansSet W U L]) := by
  simp only [APIClient.processSyncQueue, hq, Bool.not_true, Bool.false_eq_true, if_false,
    List.isEmpty_cons, List.foldl, APIClient.processItem, APIClient.dispatchItem_planUpdate,
    APIClient.setPlan, Bool.not_true, LocalStorage.setPlan_eq st W U L hw, hn]
  simp [LocalStorage.removeSyncItem_eq, LocalStorage.setLastSync_eq, List.filter, hi]

/-- Same pass when the remote call throws after exhausting its retries: the
wrapper swallows the error into an `ok:true` response, so the item is
dequeued exactly as on success. -/
theorem singlePlanPass_thrown
    (hw : st.writeOk = true)
    (hq : st.doc.syncQueue = [⟨i, "plan_update", .planUpdate W U L, a⟩])
    (hi : st.nextId ≠ i)
    (hn : net (Request.plansSet W U L) = .thrown) :
    APIClient.processSyncQueue true net st =
      (⟨{ st.doc with
            plans := AList.set st.doc.plans W
              (AList.set ((AList.get st.doc.plans W).getD []) U L),
            syncQueue := [⟨st.nextId, "plan_update", .planUpdate W U L, 0⟩],
            lastSync := true },
          st.nextId + 1, true⟩,
        [Request.plansSet W U L]) := by
  simp only [APIClient.processSyncQueue, hq, Bool.not_true, Bool.false_eq_true, if_false,
    List.isEmpty_cons, List.foldl, APIClient.processItem, APIClient.dispatchItem_planUpdate,
    APIClient.setPlan, Bool.not_true, LocalStorage.setPlan_eq st W U L hw, hn]
  simp [LocalStorage.removeSyncItem_eq, LocalStorage.setLastSync_eq, List.filter, hi]

/-- Same pass when the remote answers 2xx `{ok:false}`: one delivery attempt
is made; the item survives with `attempts + 1` while its pre-pass `attempts`
is below 5, and is dequeued on the pass that starts with `attempts ≥ 5`; the
re-run local write leaves a fresh copy behind in either case. -/
theorem singlePlanPass_reject
    (hw : st.writeOk = true)
    (hq : st.doc.syncQueue = [⟨i, "plan_update", .planUpdate W U L, a⟩])
    (hi : st.nextId ≠ i)
    (hn : net (Request.plansSet W U L) = .resp false) :
    APIClient.processSyncQueue true net st =
      (⟨{ st.doc with
            plans := AList.set st.doc.plans W
              (AList.set ((AList.get st.doc.plans W).getD []) U L),
            syncQueue :=
              (if a < 5 then [⟨i, "plan_update", .planUpdate W U L, a + 1⟩] else []) ++
                [⟨st.nextId, "plan_update", .planUpdate W U L, 0⟩],
            lastSync := true },
          st.nextId + 1, true⟩,
        [Request.plansSet W U L]) := by
  simp only [APIClient.processSyncQueue, hq, Bool.not_true, Bool.false_eq_true, if_false,
    List.isEmpty_cons, List.foldl, APIClient.processItem, APIClient.dispatchItem_planUpdate,
    APIClient.setPlan, Bool.not_true, LocalStorage.setPlan_eq st W U L hw, hn]
  by_cases ha : 5 ≤ a
  · have ha' : ¬ a < 5 := not_lt.mpr ha
    simp [ha, ha', LocalStorage.updateSyncAttempts_eq, LocalStorage.removeSyncItem_eq,
      LocalStorage.setLastSync_eq, LocalStorage.setAttempts, List.filter, hi]
  · have ha' : a < 5 := not_le.mp ha
    simp [ha, ha', LocalStorage.updateSyncAttempts_eq, LocalStorage.removeSyncItem_eq,
      LocalStorage.setLastSync_eq, LocalStorage.setAttempts, List.filter, hi]

end SinglePlanPass

/-- The single pending item of `exQueueState` after four failed delivery
attempts. -/
def exPlanItem4 : SyncItem := { exPlanItem with attempts := 4 }

/-- A healthy store whose queue holds the `plan_update` at `attempts = 4`,
i.e. about to undergo its 5th delivery attempt. -/
def exQueueState4 : StoreState :=
  { exQueueState with doc := { exQueueState.doc with syncQueue := [exPlanItem4] } }

/-! ## C1 — idempotent replay -/

/-- **C1** (evaluation at the failing input): on a healthy online store whose
queue holds one `plan_update`, with every remote call succeeding, one replay
pass leaves 1 item in the queue — the fresh copy re-enqueued because the
dispatch routes through `APIClient.setPlan`, which re-runs
`LocalStorage.setPlan` and hence `addToSyncQueue` — instead of leaving the
queue empty; an immediate second replay pass then issues 1 further remote
call instead of none. -/
theorem replayPass_leaves_requeued_copy :
    (APIClient.processSyncQueue true netAllOk exQueueState).1.doc.syncQueue.length = 1
    ∧ (APIClient.processSyncQueue true netAllOk
        (APIClient.processSyncQueue true netAllOk exQueueState).1).2.length = 1 := by
  decide

/-! ## C2 — one queue item per local mutation; removal policy -/

/-- **C2** (counterexample): with every remote delivery throwing (a
network-level failure, so no confirmed remote success, no exhausted retry
budget, and a known action), one replay pass still dequeues the pending item
(id 0): the wrapper converts the thrown delivery into an `ok:true`
"saved locally" response and the loop treats it as success.  Only the fresh
copy (id 1) re-enqueued by the dispatch's local re-write remains. -/
theorem syncItem_dequeued_on_thrown_delivery :
    (APIClient.processSyncQueue true netAllThrown exQueueState).1.doc.syncQueue =
      [⟨1, "plan_update", .planUpdate "20250811" "A" exLocations, 0⟩] := by
  decide

/-- **C2** (amended): each of the six local mutators appends exactly one
sync-queue item, with `attempts = 0` and the matching action/payload, at the
moment of the local write.  The item is then removed from the queue on a
replay pass that sees a confirmed remote success — but also on one whose
remote delivery throws (the wrapper reports `ok:true`); on a 2xx `{ok:false}`
response it survives with `attempts + 1` until the pass that starts with
`attempts ≥ 5`.  Every replayed pass re-enqueues a fresh copy of the
mutation. -/
theorem localMutation_enqueues_once_removal_policy :
    (∀ st : StoreState, st.writeOk = true →
      (∀ name u, (LocalStorage.setUser st name u).doc.syncQueue =
        st.doc.syncQueue ++ [⟨st.nextId, "user_update", .userUpdate name u, 0⟩])
      ∧ (∀ name, (LocalStorage.removeUser st name).doc.syncQueue =
        st.doc.syncQueue ++ [⟨st.nextId, "user_delete", .userDelete name, 0⟩])
      ∧ (∀ w n locs, (LocalStorage.setPlan st w n locs).doc.syncQueue =
        st.doc.syncQueue ++ [⟨st.nextId, "plan_update", .planUpdate w n locs, 0⟩])
      ∧ (∀ n w d loc, (LocalStorage.addCustomLocation st n w d loc).doc.syncQueue =
        st.doc.syncQueue ++
          [⟨st.nextId, "custom_location_add", .customLocationAdd n w d loc, 0⟩])
      ∧ (∀ adm w, (LocalStorage.setAdminOverride st adm w).doc.syncQueue =
        st.doc.syncQueue ++ [⟨st.nextId, "admin_override", .adminOverride adm w, 0⟩])
      ∧ ((LocalStorage.clearAdminOverride st).doc.syncQueue =
        st.doc.syncQueue ++ [⟨st.nextId, "admin_override_clear", .adminOverrideClear, 0⟩]))
    ∧ (∀ (st : StoreState) (i : Nat) (W U : String) (L : List String) (a : Nat)
        (net : Request → NetOutcome),
        st.writeOk = true →
        st.doc.syncQueue = [⟨i, "plan_update", .planUpdate W U L, a⟩] →
        st.nextId ≠ i →
        (net (Request.plansSet W U L) = .resp true →
          (APIClient.processSyncQueue true net st).1.doc.syncQueue =
            [⟨st.nextId, "plan_update", .planUpdate W U L, 0⟩])
        ∧ (net (Request.plansSet W U L) = .thrown →
          (APIClient.processSyncQueue true net st).1.doc.syncQueue =
            [⟨st.nextId, "plan_update", .planUpdate W U L, 0⟩])
        ∧ (net (Request.plansSet W U L) = .resp false → a < 5 →
          (APIClient.processSyncQueue true net st).1.doc.syncQueue =
            [⟨i, "plan_update", .planUpdate W U L, a + 1⟩,
              ⟨st.nextId, "plan_update", .planUpdate W U L, 0⟩])
        ∧ (net (Request.plansSet W U L) = .resp false → 5 ≤ a →
          (APIClient.processSyncQueue true net st).1.doc.syncQueue =
            [⟨st.nextId, "plan_update", .planUpdate W U L, 0⟩])) := by
  constructor
  · intro st hw
    refine ⟨fun name u => ?_, fun name => ?_, fun w n locs => ?_, fun n w d loc => ?_,
      fun adm w => ?_, ?_⟩
    · rw [LocalStorage.setUser_eq st name u hw]
    · rw [LocalStorage.removeUser_eq st name hw]
    · rw [LocalStorage.setPlan_eq st w n locs hw]
    · rw [LocalStorage.addCustomLocation_eq st n w d loc hw]
    · rw [LocalStorage.setAdminOverride_eq st adm w hw]
    · rw [LocalStorage.clearAdminOverride_eq st hw]
  · intro st i W U L a net hw hq hi
    refine ⟨fun hn => ?_, fun hn => ?_, fun hn ha => ?_, fun hn ha => ?_⟩
    · rw [singlePlanPass_success st net i W U L a hw hq hi hn]
    · rw [singlePlanPass_thrown st net i W U L a hw hq hi hn]
    · rw [singlePlanPass_reject st net i W U L a hw hq hi hn]
      simp [ha]
    · rw [singlePlanPass_reject st net i W U L a hw hq hi hn]
      simp [not_lt.mpr ha]

/-- **C2** (witness): the amended theorem applied at a concrete healthy
store: `setPlan` appends exactly one `plan_update` item, and the pass over a
single rejected item at `attempts = 4` keeps it with `attempts = 5`. -/
theorem localMutation_enqueues_once_removal_policy_witness :
    (LocalStorage.setPlan exQueueState "20250811" "A" exLocations).doc.syncQueue =
      exQueueState.doc.syncQueue ++
        [⟨1, "plan_update", .planUpdate "20250811" "A" exLocations, 0⟩]
    ∧ (APIClient.processSyncQueue true netAllReject exQueueState4).1.doc.syncQueue =
      [⟨0, "plan_update", .planUpdate "20250811" "A" exLocations, 5⟩,
        ⟨1, "plan_update", .planUpdate "20250811" "A" exLocations, 0⟩] := by
  constructor
  · exact ((localMutation_enqueues_once_removal_policy.1 exQueueState rfl).2.2.1
      "20250811" "A" exLocations)
  · exact ((localMutation_enqueues_once_removal_policy.2 exQueueState4 0 "20250811" "A"
      exLocations 4 netAllReject rfl rfl (by decide)).2.2.1 rfl (by decide))

/-! ## C3 — bounded retry -/

/-- **C3** (counterexample): an always-failing item (the server answers 2xx
`{ok:false}` on every delivery) that begins its 5th delivery attempt
(`attempts = 4`) is still in the queue after that 5th attempt fails, now at
`attempts = 5` — it is not removed after exactly 5 attempts. -/
theorem failing_item_survives_fifth_attempt :
    ((APIClient.processSyncQueue true netAllReject exQueueState4).1.doc.syncQueue.filter
        (fun it => it.id = 0)) =
      [⟨0, "plan_update", .planUpdate "20250811" "A" exLocations, 5⟩] := by
  decide

/-- **C3** (amended): for a queued item whose delivery fails with a 2xx
`{ok:false}` on every attempt, each replay pass makes exactly one delivery
attempt; the item survives with `attempts + 1` while its pre-pass `attempts`
is below 5 and is dequeued at the end of the pass that starts with
`attempts ≥ 5` — i.e. after its 6th failed delivery attempt, never before
and never later.  (Each pass also re-enqueues a fresh copy of the mutation
with `attempts = 0`, because the dispatch re-runs the local write.) -/
theorem failing_item_dropped_after_sixth_attempt (st : StoreState)
    (net : Request → NetOutcome) (i : Nat) (W U : String) (L : List String) (a : Nat)
    (hw : st.writeOk = true)
    (hq : st.doc.syncQueue = [⟨i, "plan_update", .planUpdate W U L, a⟩])
    (hi : st.nextId ≠ i)
    (hn : net (Request.plansSet W U L) = .resp false) :
    (APIClient.processSyncQueue true net st).2 = [Request.plansSet W U L]
    ∧ (APIClient.processSyncQueue true net st).1.doc.syncQueue =
        (if a < 5 then [⟨i, "plan_update", .planUpdate W U L, a + 1⟩] else []) ++
          [⟨st.nextId, "plan_update", .planUpdate W U L, 0⟩] := by
  rw [singlePlanPass_reject st net i W U L a hw hq hi hn]
  exact ⟨rfl, rfl⟩

/-- Processing one `plan_update` item on a healthy store when the remote
accepts it: the local plan row is overwritten, a fresh copy of the mutation
is enqueued, the original item is filtered out, and exactly one `plans/set`
request is issued. -/
theorem processItem_planUpdate_success (net : Request → NetOutcome) (st : StoreState)
    (i a : Nat) (W U : String) (L : List String)
    (hw : st.writeOk = true)
    (hn : net (Request.plansSet W U L) = .resp true) :
    APIClient.processItem net st ⟨i, "plan_update", .planUpdate W U L, a⟩ =
      ((⟨{ st.doc with
            plans := AList.set st.doc.plans W
              (AList.set ((AList.get st.doc.plans W).getD []) U L),
            syncQueue :=
              List.filter (fun it => it.id ≠ i)
                (st.doc.syncQueue ++
                  [⟨st.nextId, "plan_update", .planUpdate W U L, 0⟩]) },
          st.nextId + 1, true⟩ : StoreState),
        [Request.plansSet W U L]) := by
  simp only [APIClient.processItem, APIClient.dispatchItem_planUpdate, APIClient.setPlan,
    Bool.not_true, Bool.false_eq_true, if_false, LocalStorage.setPlan_eq st W U L hw, hn]
  simp [LocalStorage.removeSyncItem_eq]

/-- **C3** (witness): the amended theorem at the concrete store whose item
has `attempts = 4`: the 5th attempt is delivered and the item survives. -/
theorem failing_item_dropped_after_sixth_attempt_witness :
    (APIClient.processSyncQueue true netAllReject exQueueState4).2 =
      [Request.plansSet "20250811" "A" exLocations]
    ∧ (APIClient.processSyncQueue true netAllReject exQueueState4).1.doc.syncQueue =
        (if 4 < 5 then [⟨0, "plan_update", .planUpdate "20250811" "A" exLocations, 4 + 1⟩]
          else []) ++
          [⟨1, "plan_update", .planUpdate "20250811" "A" exLocations, 0⟩] :=
  failing_item_dropped_after_sixth_attempt exQueueState4 netAllReject 0 "20250811" "A"
    exLocations 4 rfl rfl (by decide) rfl

/-! ## C5 — ordering of queued plan updates -/

/-- **C5**: if `plan_update(W, U, A)` was enqueued before
`plan_update(W, U, B)`, then after one replay pass in which every remote
call succeeds, the locally stored plan for `(W, U)` is `B`, and the last
`plans/set` row written remotely for `(W, U)` is `B`. -/
theorem plan_updates_apply_in_order (st : StoreState) (net : Request → NetOutcome)
    (W U : String) (A B : List String) (i₁ i₂ : Nat)
    (hw : st.writeOk = true)
    (hq : st.doc.syncQueue =
      [⟨i₁, "plan_update", .planUpdate W U A, 0⟩,
        ⟨i₂, "plan_update", .planUpdate W U B, 0⟩])
    (hnet : ∀ r, net r = .resp true) :
    LocalStorage.planLookup (APIClient.processSyncQueue true net st).1.doc W U = some B
    ∧ lastPlanSet (APIClient.processSyncQueue true net st).2 W U = some B := by
  simp only [APIClient.processSyncQueue, hq, List.isEmpty_cons, Bool.not_true,
    Bool.false_eq_true, if_false, List.foldl, hnet, processItem_planUpdate_success, hw]
  simp [LocalStorage.setLastSync_eq, LocalStorage.planLookup, lastPlanSet,
    AList.get_set_self]

/-- The second 7-slot location row used by the ordering scenario. -/
def exLocationsB : List String := ["Y", "", "", "", "", "", ""]

/-- The later `plan_update` of the ordering scenario: same week and user,
row `exLocationsB`. -/
def exPlanItemB : SyncItem :=
  { id := 1, action := "plan_update",
    payload := .planUpdate "20250811" "A" exLocationsB, attempts := 0 }

/-- A healthy store whose queue holds the two `plan_update` items of the
ordering scenario, in enqueue order. -/
def exQueueStateAB : StoreState :=
  { doc := { exEmptyDoc with syncQueue := [exPlanItem, exPlanItemB] },
    nextId := 2, writeOk := true }

/-- **C5** (witness): the ordering theorem at the concrete two-item queue. -/
theorem plan_updates_apply_in_order_witness :
    LocalStorage.planLookup
        (APIClient.processSyncQueue true netAllOk exQueueStateAB).1.doc "20250811" "A" =
      some exLocationsB
    ∧ lastPlanSet
        (APIClient.processSyncQueue true netAllOk exQueueStateAB).2 "20250811" "A" =
      some exLocationsB :=
  plan_updates_apply_in_order exQueueStateAB netAllOk "20250811" "A"
    exLocations exLocationsB 0 1 rfl rfl (fun _ => rfl)

/-! ## C6 — cascade delete -/

/-- **C6**: `removeUser U` removes `U` from the users map, removes the plan
entry keyed by `U` in every stored week, and removes all of `U`'s custom
locations — the cascade is assembled on one read of the document and
persisted by the single `saveData` of that call — while every other user's
user record, plan entries and custom locations are untouched. -/
theorem removeUser_cascades (st : StoreState) (name : String) (h : st.writeOk = true) :
    AList.get (LocalStorage.removeUser st name).doc.users name = none
    ∧ (∀ w, LocalStorage.planLookup (LocalStorage.removeUser st name).doc w name = none)
    ∧ AList.get (LocalStorage.removeUser st name).doc.customLocations name = none
    ∧ (∀ n, n ≠ name →
        AList.get (LocalStorage.removeUser st name).doc.users n = AList.get st.doc.users n)
    ∧ (∀ w n, n ≠ name →
        LocalStorage.planLookup (LocalStorage.removeUser st name).doc w n =
          LocalStorage.planLookup st.doc w n)
    ∧ (∀ n, n ≠ name →
        AList.get (LocalStorage.removeUser st name).doc.customLocations n =
          AList.get st.doc.customLocations n) := by
  rw [LocalStorage.removeUser_eq st name h]
  refine ⟨?_, ?_, ?_, ?_, ?_, ?_⟩
  · simp
  · intro w
    simp only [LocalStorage.planLookup]
    rw [AList.get_map_snd st.doc.plans (fun m => AList.erase m name) w]
    cases AList.get st.doc.plans w with
    | none => rfl
    | some m => simp
  · simp
  · intro n hn
    exact AList.get_erase_ne st.doc.users name n hn.symm
  · intro w n hn
    simp only [LocalStorage.planLookup]
    rw [AList.get_map_snd st.doc.plans (fun m => AList.erase m name) w]
    cases AList.get st.doc.plans w with
    | none => rfl
    | some m => simpa using AList.get_erase_ne m name n hn.symm
  · intro n hn
    exact AList.get_erase_ne st.doc.customLocations name n hn.symm

/-- A populated document: two users, a plan row for each in one week, and a
custom location for the first. -/
def exUserDoc : CacheDocument :=
  { users := [("A", ⟨"1234", false⟩), ("B", ⟨"5678", true⟩)],
    plans := [("20250811", [("A", exLocations), ("B", exLocationsB)])],
    customLocations := [("A", [("20250811", [("2025-08-11", "Goa")])])],
    adminOverride := none, syncQueue := [], lastSync := false }

/-- A healthy store holding `exUserDoc`. -/
def exUserState : StoreState := { doc := exUserDoc, nextId := 0, writeOk := true }

/-- **C6** (witness): deleting user `A` of the populated store removes
user `A`, `A`'s plan row and `A`'s custom locations, and leaves user `B`'s
record and plan row untouched. -/
theorem removeUser_cascades_witness :
    AList.get (LocalStorage.removeUser exUserState "A").doc.users "A" = none
    ∧ LocalStorage.planLookup (LocalStorage.removeUser exUserState "A").doc "20250811" "A" =
        none
    ∧ AList.get (LocalStorage.removeUser exUserState "A").doc.customLocations "A" = none
    ∧ AList.get (LocalStorage.removeUser exUserState "A").doc.users "B" =
        AList.get exUserState.doc.users "B"
    ∧ LocalStorage.planLookup (LocalStorage.removeUser exUserState "A").doc "20250811" "B" =
        LocalStorage.planLookup exUserState.doc "20250811" "B" :=
  ⟨(removeUser_cascades exUserState "A" rfl).1,
    (removeUser_cascades exUserState "A" rfl).2.1 "20250811",
    (removeUser_cascades exUserState "A" rfl).2.2.1,
    (removeUser_cascades exUserState "A" rfl).2.2.2.1 "B" (by decide),
    (removeUser_cascades exUserState "A" rfl).2.2.2.2.1 "20250811" "B" (by decide)⟩

/-! ## C7 — server-wins merge preserves unknown fields -/

/-- **C7**: if the store holds user `A` with password `1234` and
`isAdmin = false`, then after the `getUsers` read-path merge of a server
response containing `{name: A, isAdmin: true}`, the local record for `A`
keeps password `1234` (the user-list response carries no password) and has
`isAdmin = true` (overwritten by the server value). -/
theorem merge_preserves_password (st : StoreState)
    (hw : st.writeOk = true)
    (hu : AList.get st.doc.users "A" = some ⟨"1234", false⟩) :
    AList.get (APIClient.getUsersMergeLocal [("A", true)] st).doc.users "A" =
      some ⟨"1234", true⟩ := by
  simp only [APIClient.getUsersMergeLocal, APIClient.mergeUsersLoop, hu]
  rw [LocalStorage.setUser_eq st "A" _ hw]
  simp

/-- A healthy store holding exactly the user of the merge scenario. -/
def exMergeState : StoreState :=
  { doc := { exEmptyDoc with users := [("A", ⟨"1234", false⟩)] },
    nextId := 0, writeOk := true }

/-- **C7** (witness): the merge theorem at the concrete one-user store. -/
theorem merge_preserves_password_witness :
    AList.get (APIClient.getUsersMergeLocal [("A", true)] exMergeState).doc.users "A" =
      some ⟨"1234", true⟩ :=
  merge_preserves_password exMergeState rfl rfl

/-! ## C10 — the read-path merge is a frame on the users map -/

/-- **C10**: for every server user-list response, the `getUsers` read-path
merge preserves the stored user names and their passwords exactly — the
`(name, password)` sequence of the users map is unchanged, so no user record
is added (server users with no local record are ignored), none is removed,
and for an existing record only `isAdmin` can have changed. -/
theorem mergeUsersLoop_password_frame (su : List (String × Bool))
    (cur : List (String × User)) :
    ∀ st : StoreState,
      st.doc.users.map (fun p => (p.1, p.2.password)) =
        cur.map (fun p => (p.1, p.2.password)) →
      ((APIClient.mergeUsersLoop cur su st).doc.users).map (fun p => (p.1, p.2.password)) =
        cur.map (fun p => (p.1, p.2.password)) := by
  induction su with
  | nil => intro st h; simpa [APIClient.mergeUsersLoop] using h
  | cons p rest ih =>
    intro st h
    obtain ⟨n, adm⟩ := p
    simp only [APIClient.mergeUsersLoop]
    cases hcur : AList.get cur n with
    | none => exact ih st h
    | some u =>
      apply ih
      by_cases hw : st.writeOk = true
      · rw [LocalStorage.setUser_eq st n _ hw]
        show (AList.set st.doc.users n _).map _ = _
        rw [AList.map_set, h]
        apply AList.set_eq_self_of_get
        rw [AList.get_map_snd, hcur]
        rfl
      · have hw' : st.writeOk = false := by
          cases hb : st.writeOk
          · rfl
          · exact absurd hb hw
        rw [LocalStorage.setUser_eq_of_writeFail st n _ hw']
        exact h

/-- **C10**: the `getUsers` read-path merge, for every store and every server
user-list response, leaves the `(name, password)` sequence of the users map
exactly as it was: no user record is added (server users with no pre-existing
local record are ignored), none is removed, and for each existing record
only the `isAdmin` field can have changed. -/
theorem getUsers_merge_users_frame (st : StoreState) (serverUsers : List (String × Bool)) :
    ((APIClient.getUsersMergeLocal serverUsers st).doc.users).map
        (fun p => (p.1, p.2.password)) =
      st.doc.users.map (fun p => (p.1, p.2.password)) :=
  mergeUsersLoop_password_frame serverUsers st.doc.users st rfl

/-! ## C8 — storage failure handling -/

/-- A store whose backend rejects every write (e.g. quota exceeded). -/
def exBadState : StoreState := { doc := exUserDoc, nextId := 0, writeOk := false }

/-- **C8** (counterexample): on a store whose backend rejects writes, a
mutation completes as a silent no-op — the persisted document is exactly the
prior one — and no `StorageError` reaches the caller: the operation's result
carries no failure indication at all and is indistinguishable from a
successful no-op, even though the underlying `saveData` did detect the
failure and report `false` (a flag every mutating caller discards).  This
refutes "the failure is reported to the caller as a StorageError". -/
theorem storage_failure_not_reported :
    (LocalStorage.setUser exBadState "Zed" ⟨"0000", false⟩).doc = exBadState.doc
    ∧ (LocalStorage.saveData exBadState exEmptyDoc).1 = false := by
  decide

/-- **C8** (amended): when the storage backend fails, every local mutation
leaves the persisted document in its prior state (the write is rejected with
no partial write visible), and `saveData` itself returns `false` — but the
mutating operations discard that flag and return normally, so the failure is
not surfaced to their caller. -/
theorem storage_failure_silent (st : StoreState) (h : st.writeOk = false) :
    (∀ d, LocalStorage.saveData st d = (false, st))
    ∧ (∀ n u, (LocalStorage.setUser st n u).doc = st.doc)
    ∧ (∀ n, (LocalStorage.removeUser st n).doc = st.doc)
    ∧ (∀ w n l, (LocalStorage.setPlan st w n l).doc = st.doc)
    ∧ (∀ n w d loc, (LocalStorage.addCustomLocation st n w d loc).doc = st.doc)
    ∧ (∀ adm w, (LocalStorage.setAdminOverride st adm w).doc = st.doc)
    ∧ ((LocalStorage.clearAdminOverride st).doc = st.doc) := by
  refine ⟨fun d => ?_, fun n u => ?_, fun n => ?_, fun w n l => ?_, fun n w d loc => ?_,
    fun adm w => ?_, ?_⟩
  · simp [LocalStorage.saveData, h]
  · simp [LocalStorage.setUser, LocalStorage.addToSyncQueue, LocalStorage.save,
      LocalStorage.saveData, h]
  · simp [LocalStorage.removeUser, LocalStorage.addToSyncQueue, LocalStorage.save,
      LocalStorage.saveData, h]
  · simp [LocalStorage.setPlan, LocalStorage.addToSyncQueue, LocalStorage.save,
      LocalStorage.saveData, h]
  · simp [LocalStorage.addCustomLocation, LocalStorage.addToSyncQueue, LocalStorage.save,
      LocalStorage.saveData, h]
  · simp [LocalStorage.setAdminOverride, LocalStorage.addToSyncQueue, LocalStorage.save,
      LocalStorage.saveData, h]
  · simp [LocalStorage.clearAdminOverride, LocalStorage.addToSyncQueue, LocalStorage.save,
      LocalStorage.saveData, h]

/-- **C8** (witness): the amended theorem at the concrete failing store. -/
theorem storage_failure_silent_witness :
    LocalStorage.saveData exBadState exEmptyDoc = (false, exBadState)
    ∧ (LocalStorage.setPlan exBadState "20250811" "A" exLocations).doc = exBadState.doc :=
  ⟨(storage_failure_silent exBadState rfl).1 exEmptyDoc,
    (storage_failure_silent exBadState rfl).2.2.2.1 "20250811" "A" exLocations⟩

/-! ## C4 — non-2xx responses in `fetchWithRetry` -/

/-- **C4** (counterexample): a request whose every HTTP attempt yields a
non-2xx response with the JSON body `{message: "nope"}` is not failed
immediately: `fetchWithRetry` (default budget 3) performs all 3 attempts —
not 1, refuting "no retry" — before throwing, and the thrown error does
carry the server message. -/
theorem non2xx_json_is_retried :
    APIClient.fetchWithRetry (fun _ => .httpError 400 (some "nope")) 3 =
      (Except.error "nope", 3)
    ∧ (APIClient.fetchWithRetry (fun _ => .httpError 400 (some "nope")) 3).2 ≠ 1 :=
  ⟨rfl, by decide⟩

/-- **C4** (amended): a non-2xx response is retried like a network failure,
whether or not its body parses as JSON; an always-rejected request fails only
after the full default budget of 3 HTTP attempts, and the error it finally
throws carries the JSON `message` of the last attempt. -/
theorem non2xx_json_retried_to_budget (status : Nat) (msgs : Nat → String) :
    APIClient.fetchWithRetry (fun i => .httpError status (some (msgs i))) 3 =
      (Except.error (msgs 2), 3) := rfl

/-! ## Week clock (js/utils.js)

`computeWeekStartIST` reads calendar fields through the JS `Date` getters
(`getUTCFullYear`, `getUTCMonth`, `getUTCDate`, `getUTCDay`), which ECMAScript
specifies on the proleptic Gregorian calendar: `YearFromTime` is defined as
the largest year whose start does not exceed the instant, and
`MonthFromTime`/`DateFromTime` read off the day within that year.  The
embedding below implements exactly that specification on day numbers (days
since the Unix epoch), using the standard 400-year-era decomposition:
`yoeOfDoe` is the year-of-era search, `monthOfDoy`/`domOfDoy` the March-based
month/day split.  `daysFromCivil` is the inverse used to embed
`new Date(iso + "T00:00:00.000Z")`, i.e. parsing an ISO `YYYY-MM-DD` string
as midnight UTC.  Instants are milliseconds since the epoch (`Int`); an ISO
date string is represented by its `(year, month, day)` content, on which the
formatting used by the source is injective. -/

/-- Day number of the first day (March-based) of year-of-era `y`:
`365 y + y / 4 - y / 100` leap days within a 400-year era (`y ≤ 399`). -/
def dstart (y : Nat) : Nat := 365 * y + y / 4 - y / 100

/-- Year-of-era of a day-of-era: the largest `y ≤ 399` with
`dstart y ≤ doe`, located by clamped division. -/
def yoeOfDoe (doe : Nat) : Nat :=
  let y0 := if doe / 365 ≤ 399 then doe / 365 else 399
  if dstart y0 ≤ doe then y0 else y0 - 1

/-- Day-of-year (March-based) of a day-of-era. -/
def doyOfDoe (doe : Nat) : Nat := doe - dstart (yoeOfDoe doe)

/-- March-based month index `0..11` of a day-of-year. -/
def mpOfDoy (doy : Nat) : Nat := (5 * doy + 2) / 153

/-- Day-of-month `1..31` of a day-of-year. -/
def domOfDoy (doy : Nat) : Nat := doy - (153 * mpOfDoy doy + 2) / 5 + 1

/-- Civil month `1..12` of a day-of-year. -/
def monthOfDoy (doy : Nat) : Nat :=
  if mpOfDoy doy < 10 then mpOfDoy doy + 3 else mpOfDoy doy - 9

/-- The civil `(year, month, day)` of a day number, as read through
`getUTCFullYear`/`getUTCMonth`/`getUTCDate`. -/
def civilFromDays (z : Int) : Int × Nat × Nat :=
  let era : Int := (z + 719468) / 146097
  let doe : Nat := (z + 719468 - era * 146097).toNat
  let y : Int := (yoeOfDoe doe : Int) + era * 400
  let m : Nat := monthOfDoy (doyOfDoe doe)
  (if m ≤ 2 then y + 1 else y, m, domOfDoy (doyOfDoe doe))

/-- The day number of a civil `(year, month, day)`: the value of
`Date.UTC(year, month - 1, day) / 86400000`, used to embed the parsing of an
ISO `YYYY-MM-DD` date string at midnight UTC. -/
def daysFromCivil (y : Int) (m d : Nat) : Int :=
  let yAdj : Int := if m ≤ 2 then y - 1 else y
  let era : Int := yAdj / 400
  let yoe : Nat := (yAdj - era * 400).toNat
  let doy : Nat := (153 * (if 2 < m then m - 3 else m + 9) + 2) / 5 + d - 1
  let doe : Nat := yoe * 365 + yoe / 4 - yoe / 100 + doy
  era * 146097 + (doe : Int) - 719468

/-- An ISO `YYYY-MM-DD` date string, represented by its civil content. -/
abbrev Civil := Int × Nat × Nat

/-- `daysFromCivil` on a `Civil` triple. -/
def daysFromCivilC (c : Civil) : Int := daysFromCivil c.1 c.2.1 c.2.2

/-- The year-of-era search satisfies its bracket: `yoeOfDoe doe` starts on
or before `doe`, leaves a day-of-year of at most 365, and stays below 400. -/
theorem yoeOfDoe_spec (doe : Nat) (h : doe < 146097) :
    dstart (yoeOfDoe doe) ≤ doe
    ∧ doe - dstart (yoeOfDoe doe) ≤ 365
    ∧ yoeOfDoe doe ≤ 399 := by
  simp only [yoeOfDoe, dstart]
  split_ifs with h1 h2 h2 <;> omega

/-- Splitting a day-of-era into year-of-era, month and day and recombining
via the `daysFromCivil` day-of-year formula is the identity. -/
theorem doy_reconstruct (doe : Nat) (h : doe < 146097) :
    yoeOfDoe doe * 365 + yoeOfDoe doe / 4 - yoeOfDoe doe / 100 +
        ((153 * (if 2 < monthOfDoy (doyOfDoe doe) then monthOfDoy (doyOfDoe doe) - 3
            else monthOfDoy (doyOfDoe doe) + 9) + 2) / 5 + domOfDoy (doyOfDoe doe) - 1)
      = doe := by
  have hs := yoeOfDoe_spec doe h
  simp only [dstart] at hs
  simp only [monthOfDoy, domOfDoy, mpOfDoy, doyOfDoe, dstart]
  split_ifs <;> omega

/-- `daysFromCivil` on an era-decomposed year, with the era factored out. -/
theorem daysFromCivil_era (era : Int) (yoe m d : Nat) (hyoe : yoe ≤ 399) :
    daysFromCivil (if m ≤ 2 then (yoe : Int) + era * 400 + 1 else (yoe : Int) + era * 400)
        m d =
      era * 146097 +
        ((yoe * 365 + yoe / 4 - yoe / 100 +
          ((153 * (if 2 < m then m - 3 else m + 9) + 2) / 5 + d - 1) : Nat) : Int)
        - 719468 := by
  simp only [daysFromCivil]
  by_cases hm2 : m ≤ 2
  · simp only [hm2, if_true, reduceIte]
    have h2 : ((yoe : Int) + era * 400 + 1 - 1) / 400 = era := by omega
    rw [h2]
    have h3 : ((yoe : Int) + era * 400 + 1 - 1 - era * 400).toNat = yoe := by omega
    rw [h3]
  · simp only [hm2, if_false, reduceIte]
    have h2 : ((yoe : Int) + era * 400) / 400 = era := by omega
    rw [h2]
    have h3 : ((yoe : Int) + era * 400 - era * 400).toNat = yoe := by omega
    rw [h3]

/-- The calendar conversions are mutually inverse: reading the civil date of
any day number and re-encoding it yields the same day number. -/
theorem daysFromCivil_civilFromDays (z : Int) : daysFromCivilC (civilFromDays z) = z := by
  simp only [civilFromDays, daysFromCivilC]
  generalize hera : (z + 719468) / 146097 = era
  generalize hdoe : (z + 719468 - era * 146097).toNat = doe
  have hblt : doe < 146097 := by omega
  have hyoe : yoeOfDoe doe ≤ 399 := (yoeOfDoe_spec doe hblt).2.2
  show daysFromCivil _ _ _ = z
  rw [daysFromCivil_era era (yoeOfDoe doe) (monthOfDoy (doyOfDoe doe))
    (domOfDoy (doyOfDoe doe)) hyoe]
  rw [doy_reconstruct doe hblt]
  omega

/-- `86400000` milliseconds per day. -/
def msPerDay : Int := 86400000

/-- The fixed `+5:30` offset of `computeWeekStartIST`, in milliseconds. -/
def istOffsetMs : Int := 19800000

/-- Lines 21-30 of `computeWeekStartIST`: shift the instant to IST, read its
day-of-week (`getUTCDay`, Sunday = 0), and step back to the Monday of that
week (6 days back from Sunday, `dayOfWeek - 1` days back otherwise).
`setUTCDate` keeps the time of day, so the Monday's civil date is the civil
date of `istDay + mondayOffset`. -/
def mondayOfInstant (t : Int) : Int :=
  let istDay : Int := (t + istOffsetMs) / msPerDay
  let dayOfWeek : Int := (istDay + 4) % 7
  istDay + (if dayOfWeek = 0 then -6 else -(dayOfWeek - 1))

/-- `String(n).padStart(2, "0")`. -/
def pad2 (n : Nat) : String := if n < 10 then "0" ++ toString n else toString n

/-- The month-name table of `computeWeekStartIST`. -/
def monthNames : List String :=
  ["Jan", "Feb", "Mar", "Apr", "May", "Jun", "Jul", "Aug", "Sep", "Oct", "Nov", "Dec"]

/-- The `YYYYMMDD` week id: unpadded year, zero-padded month and day. -/
def formatWeekId (c : Civil) : String := toString c.1 ++ pad2 c.2.1 ++ pad2 c.2.2

/-- The `DD/Mon/YY` display header. -/
def formatHeader (c : Civil) : String :=
  pad2 c.2.2 ++ "/" ++ monthNames.getD (c.2.1 - 1) "" ++ "/" ++ (toString c.1).takeRight 2

/-- The result record of `computeWeekStartIST`: the `weekStartId` string, the
seven display headers, and the seven ISO day dates (as civil content). -/
structure WeekInfo where
  weekStartId : String
  headers : List String
  dayDates : List Civil
deriving Repr, DecidableEq

/-- `computeWeekStartIST(date, overrideDateISO)`: when an override ISO date
is given, the instant is replaced by midnight UTC of that date; the result
describes the Monday-to-Sunday week containing the IST-shifted instant. -/
def computeWeekStartIST (now : Int) (overrideDateISO : Option Civil := none) : WeekInfo :=
  let date : Int :=
    match overrideDateISO with
    | some c => daysFromCivilC c * msPerDay
    | none => now
  let monday : Int := mondayOfInstant date
  { weekStartId := formatWeekId (civilFromDays monday)
    headers := (List.range 7).map (fun i => formatHeader (civilFromDays (monday + i)))
    dayDates := (List.range 7).map (fun i => civilFromDays (monday + i)) }

/-- The computed Monday really is a Monday (`getUTCDay = 1`). -/
theorem mondayOfInstant_isMonday (t : Int) : (mondayOfInstant t + 4) % 7 = 1 := by
  simp only [mondayOfInstant, msPerDay, istOffsetMs]
  split_ifs <;> omega

/-- Midnight UTC of a Monday is mapped to that same Monday: the `+5:30`
shift stays within the day, and a Monday steps back zero days. -/
theorem mondayOfInstant_fix (d : Int) (hd : (d + 4) % 7 = 1) :
    mondayOfInstant (d * msPerDay) = d := by
  simp only [mondayOfInstant, msPerDay, istOffsetMs]
  split_ifs <;> omega

/-- Sanity anchor: the instant `2025-08-12T13:20:00Z` falls in the week of
Monday 2025-08-11 and renders the spec's example week id and header. -/
example :
    (computeWeekStartIST 1755004800000 none).weekStartId = "20250811"
    ∧ (computeWeekStartIST 1755004800000 none).headers.headI = "11/Aug/25"
    ∧ (computeWeekStartIST 1755004800000 none).dayDates.headI = (2025, 8, 11) := by
  decide

/-! ## C9 — week identity round-trip -/

/-- **C9**: for every instant `now`, recomputing the week with the override
date set to the first day-date of `computeWeekStartIST now` — the Monday of
the computed week — yields the same `weekStartId`. -/
theorem computeWeek_override_roundtrip (now : Int) :
    (computeWeekStartIST now
        (some ((computeWeekStartIST now none).dayDates.headI))).weekStartId =
      (computeWeekStartIST now none).weekStartId := by
  have hr : List.range 7 = [0, 1, 2, 3, 4, 5, 6] := rfl
  have h0 : (computeWeekStartIST now none).dayDates.headI =
      civilFromDays (mondayOfInstant now) := by
    simp [computeWeekStartIST, hr]
  rw [h0]
  show formatWeekId (civilFromDays (mondayOfInstant
      (daysFromCivilC (civilFromDays (mondayOfInstant now)) * msPerDay))) =
    (computeWeekStartIST now none).weekStartId
  rw [daysFromCivil_civilFromDays]
  rw [mondayOfInstant_fix _ (mondayOfInstant_isMonday now)]
  rfl

end TourPlan
